import Mathlib

/-!
# Verification of the Personal Finance Tracker record store

A shallow embedding of `src/core/data_manager.py` (the record store and
query/aggregation engine) together with proofs of the behavioural claims
stated in the specification.

Modelling conventions:
* The CSV backing file is modelled by its row content, a `List Transaction`
  (the fixed header is implicit in the record type).
* Python `float` amounts are modelled as rationals `ℚ` (the spec treats
  amounts as decimal numbers).
* Raising `ValueError` is modelled with `Except ValidationError` /
  returning the untouched store.
* `datetime.strptime(s, "%d-%m-%Y")` is modelled by `strptimeDMY`:
  the day and month fields are 1–2 digit numbers in range (the `%d`/`%m`
  regex classes), the year field is exactly four digits, the three fields
  are separated by literal dashes consuming the whole string, and the
  resulting triple must form a real calendar date with year ≥ 1
  (the `datetime` constructor's range checks, leap years included).
-/

/-- Decidable equality on `Except`, so that concrete runs of the fallible
operations can be checked by `decide`. -/
instance {ε α : Type} [DecidableEq ε] [DecidableEq α] : DecidableEq (Except ε α) := by
  intro x y
  cases x <;> cases y
  case error.error a b =>
    exact if h : a = b then .isTrue (by rw [h]) else .isFalse (by intro hc; cases hc; exact h rfl)
  case ok.ok a b =>
    exact if h : a = b then .isTrue (by rw [h]) else .isFalse (by intro hc; cases hc; exact h rfl)
  case error.ok a b => exact .isFalse (by intro hc; cases hc)
  case ok.error a b => exact .isFalse (by intro hc; cases hc)

namespace FinanceTracker

/-- `config.constants.Category`: the closed two-value category enumeration. -/
inductive Category where
  | income
  | expense
  deriving DecidableEq, Repr

/-- `Category.value` in Python: the string payload of each enum member. -/
def Category.value : Category → String
  | .income => "Income"
  | .expense => "Expense"

/-- `[c.value for c in Category]` as used in `Transaction.validate`. -/
def valid_categories : List String := [Category.income.value, Category.expense.value]

/-- A parsed calendar date (the result of a successful `strptime`). -/
structure Date where
  day : Nat
  month : Nat
  year : Nat
  deriving DecidableEq, Repr

/-- Leap-year rule used by `datetime` (Gregorian). -/
def isLeapYear (y : Nat) : Bool :=
  (y % 4 == 0 && y % 100 != 0) || (y % 400 == 0)

/-- Number of days in a month, as enforced by the `datetime` constructor. -/
def daysInMonth (y m : Nat) : Nat :=
  if m = 2 then (if isLeapYear y then 29 else 28)
  else if m = 4 ∨ m = 6 ∨ m = 9 ∨ m = 11 then 30
  else 31

/-- Split a character list at every `'-'` (the literal separators of the
`"%d-%m-%Y"` format); mirrors `String.splitOn "-"`. -/
def splitOnDash : List Char → List (List Char)
  | [] => [[]]
  | c :: cs =>
    match splitOnDash cs with
    | [] => [[c]]
    | g :: gs => if c = '-' then [] :: g :: gs else (c :: g) :: gs

/-- Numeric value of a decimal digit character, `none` for non-digits. -/
def charDigit? (c : Char) : Option Nat :=
  if '0' ≤ c ∧ c ≤ '9' then some (c.toNat - 48) else none

/-- Value of an all-digit character list (accumulator form); `none` as soon
as a non-digit appears. -/
def digitsVal? : List Char → Nat → Option Nat
  | [], acc => some acc
  | c :: cs, acc =>
    match charDigit? c with
    | some d => digitsVal? cs (acc * 10 + d)
    | none => none

/-- The `%d` / `%m` field of `strptime`: one or two digits whose value lies in
`[lo, hi]` (two-digit forms may be zero padded, a lone `0` or `00` is refused
because the value must be at least `lo ≥ 1`). -/
def parseBoundedField (lo hi : Nat) (s : List Char) : Option Nat :=
  if s.length = 0 ∨ 2 < s.length then none
  else
    match digitsVal? s 0 with
    | some n => if lo ≤ n ∧ n ≤ hi then some n else none
    | none => none

/-- The `%Y` field of `strptime`: exactly four digits; the `datetime`
constructor additionally requires `year ≥ 1`. -/
def parseYearField (s : List Char) : Option Nat :=
  if s.length = 4 then
    match digitsVal? s 0 with
    | some n => if 1 ≤ n then some n else none
    | none => none
  else none

/-- `datetime.strptime(s, "%d-%m-%Y")`: day and month fields are 1–2 digit
values in range, the year field exactly four digits, separated by literal
dashes that consume the whole input, and the triple must be a real calendar
date. Returns `none` where Python raises `ValueError`. -/
def strptimeDMY (s : String) : Option Date :=
  match splitOnDash s.toList with
  | [d, m, y] =>
    match parseBoundedField 1 31 d, parseBoundedField 1 12 m, parseYearField y with
    | some day, some month, some year =>
      if day ≤ daysInMonth year month then some ⟨day, month, year⟩ else none
    | _, _, _ => none
  | _ => none

/-- Injective, strictly monotone key for comparing parsed dates the way
`datetime` objects compare (year, then month, then day); `month ≤ 12 < 16`
and `day ≤ 31 < 32` make the encoding order preserving. -/
def Date.key (d : Date) : Nat :=
  (d.year * 16 + d.month) * 32 + d.day

/-- Date key of a stored date string (only used where the string is known to
parse; unparsable strings make the surrounding pandas call raise instead). -/
def dateKeyOf (s : String) : Nat :=
  match strptimeDMY s with
  | some d => d.key
  | none => 0

/-- The error kinds raised by `Transaction.validate` (`ValueError` messages). -/
inductive ValidationError where
  | invalidDate
  | invalidAmount
  | invalidCategory
  deriving DecidableEq, Repr

/-- `core.data_manager.Transaction`: one row of the store. -/
structure Transaction where
  id : Int
  date : String
  amount : ℚ
  category : String
  description : String
  deriving DecidableEq, Repr

/-- `Transaction.validate`: date format first, then amount, then category.
(The `isinstance` number check is vacuous here because `amount` is typed.)
The description is not inspected at all. -/
def Transaction.validate (t : Transaction) : Except ValidationError Unit :=
  if (strptimeDMY t.date).isNone then .error .invalidDate
  else if t.amount ≤ 0 then .error .invalidAmount
  else if t.category ∈ valid_categories then .ok ()
  else .error .invalidCategory

/-- `DataManager._get_next_id`: `1` on an empty store, otherwise
`max(df["id"]) + 1`. -/
def get_next_id (rows : List Transaction) : Int :=
  match rows.map (·.id) with
  | [] => 1
  | i :: is => is.foldl max i + 1

/-- `DataManager.add_transaction`: allocate the id, construct (and thereby
validate) the `Transaction`, and only then append it to the file. The first
component is the resulting file content: on a validation error the exception
propagates before the file is opened, so the content is returned unchanged. -/
def add_transaction (rows : List Transaction)
    (date : String) (amount : ℚ) (category description : String) :
    List Transaction × Except ValidationError Transaction :=
  let t : Transaction := ⟨get_next_id rows, date, amount, category, description⟩
  match t.validate with
  | .error e => (rows, .error e)
  | .ok _ => (rows ++ [t], .ok t)

/-- `DataManager.delete_transaction`: drop every row whose id matches and
rewrite the file; report `false` (and leave the file alone) when nothing was
dropped. -/
def delete_transaction (rows : List Transaction) (tid : Int) :
    List Transaction × Bool :=
  let rows' := rows.filter (fun t => t.id ≠ tid)
  if rows'.length = rows.length then (rows, false) else (rows', true)

/-- The in-memory row produced by `update_transaction`'s four
`if field is not None` assignments: supplied fields replace, the others keep
their current value. -/
def mergeRow (t : Transaction) (d : Option String) (a : Option ℚ)
    (c ds : Option String) : Transaction :=
  { t with
    date := d.getD t.date
    amount := a.getD t.amount
    category := c.getD t.category
    description := ds.getD t.description }

/-- `DataManager.update_transaction`: locate the rows matching the id
(`false` when there are none), apply the supplied replacements to each of
them, re-validate the first updated matching row via
`Transaction.from_dict`, and only on success rewrite the file; the
`ValueError` raised by a failed validation is caught and turned into
`false`, before the file was touched. -/
def update_transaction (rows : List Transaction) (tid : Int)
    (d : Option String) (a : Option ℚ) (c ds : Option String) :
    List Transaction × Bool :=
  match rows.find? (fun t => t.id == tid) with
  | none => (rows, false)
  | some t =>
    match (mergeRow t d a c ds).validate with
    | .error _ => (rows, false)
    | .ok _ => (rows.map fun u => if u.id = tid then mergeRow u d a c ds else u, true)

/-- Python truthiness on the optional string arguments of
`get_transactions` (`if start_date:` and friends): `None` and the empty
string are both "not supplied". -/
def strOpt : Option String → Option String
  | none => none
  | some s => if s = "" then none else some s

/-- Case-insensitive prefix test on character lists. -/
def isPrefixCL : List Char → List Char → Bool
  | [], _ => true
  | _ :: _, [] => false
  | a :: as, b :: bs => a == b && isPrefixCL as bs

/-- Substring test on character lists. -/
def hasSubstrCL (needle : List Char) : List Char → Bool
  | [] => needle.isEmpty
  | c :: hs => isPrefixCL needle (c :: hs) || hasSubstrCL needle hs

/-- `df["description"].str.contains(q, case=False, na=False)` on one row:
case-insensitive substring containment. (pandas interprets `q` as a regular
expression; for search terms free of regex metacharacters — the documented
use — this is exactly case-insensitive substring containment.) -/
def containsCI (hay needle : String) : Bool :=
  hasSubstrCL needle.toLower.toList hay.toLower.toList

/-- The `if start_date:` block of `get_transactions`: skipped when the
bound is not supplied (Python truthiness: `None` or `""`); a supplied bound
is parsed by `strptime` (raising — `none` — on failure) and the frame is
restricted to rows whose parsed date is `≥` the bound. -/
def startDateStage (start_date : Option String) (l : List Transaction) :
    Option (List Transaction) :=
  match strOpt start_date with
  | none => some l
  | some s =>
    match strptimeDMY s with
    | none => none
    | some d => some (l.filter fun t => d.key ≤ dateKeyOf t.date)

/-- The `if end_date:` block of `get_transactions`: as `startDateStage`,
restricting to rows whose parsed date is `≤` the bound. -/
def endDateStage (end_date : Option String) (l : List Transaction) :
    Option (List Transaction) :=
  match strOpt end_date with
  | none => some l
  | some s =>
    match strptimeDMY s with
    | none => none
    | some d => some (l.filter fun t => dateKeyOf t.date ≤ d.key)

/-- The `if category:` block of `get_transactions`: exact match. -/
def categoryStage (category : Option String) (l : List Transaction) :
    List Transaction :=
  match strOpt category with
  | none => l
  | some c => l.filter fun t => t.category = c

/-- The `if description_search:` block: case-insensitive containment. -/
def descriptionStage (description_search : Option String) (l : List Transaction) :
    List Transaction :=
  match strOpt description_search with
  | none => l
  | some q => l.filter fun t => containsCI t.description q

/-- The `if min_amount is not None:` block: inclusive lower bound. -/
def minAmountStage (min_amount : Option ℚ) (l : List Transaction) :
    List Transaction :=
  match min_amount with
  | none => l
  | some m => l.filter fun t => m ≤ t.amount

/-- The `if max_amount is not None:` block: inclusive upper bound. -/
def maxAmountStage (max_amount : Option ℚ) (l : List Transaction) :
    List Transaction :=
  match max_amount with
  | none => l
  | some m => l.filter fun t => t.amount ≤ m

/-- `DataManager.get_transactions`: an empty frame is returned untouched;
otherwise every stored date is parsed (`pd.to_datetime` raises — `none` —
if any row's date is malformed), then the six optional filters are applied
in sequence, in the order of the source. A supplied but unparsable bound
makes `strptime` raise (`none`). Date bounds are inclusive comparisons on
parsed dates, amount bounds inclusive numeric comparisons. -/
def get_transactions (rows : List Transaction)
    (start_date end_date category description_search : Option String)
    (min_amount max_amount : Option ℚ) : Option (List Transaction) :=
  if rows.isEmpty then some rows
  else if ¬ rows.all (fun t => (strptimeDMY t.date).isSome) then none
  else
    match startDateStage start_date rows with
    | none => none
    | some df1 =>
      match endDateStage end_date df1 with
      | none => none
      | some df2 =>
        some (maxAmountStage max_amount (minAmountStage min_amount
          (descriptionStage description_search (categoryStage category df2))))

/-- Row predicate of the start-date filter: a no-op unless the bound is
supplied (non-`None`, non-empty), then an inclusive comparison of parsed
dates. -/
def startPred (start_date : Option String) (t : Transaction) : Bool :=
  match strOpt start_date with
  | none => true
  | some s => decide (dateKeyOf s ≤ dateKeyOf t.date)

/-- Row predicate of the end-date filter. -/
def endPred (end_date : Option String) (t : Transaction) : Bool :=
  match strOpt end_date with
  | none => true
  | some s => decide (dateKeyOf t.date ≤ dateKeyOf s)

/-- Row predicate of the category filter. -/
def catPred (category : Option String) (t : Transaction) : Bool :=
  match strOpt category with
  | none => true
  | some c => decide (t.category = c)

/-- Row predicate of the description search. -/
def descPred (description_search : Option String) (t : Transaction) : Bool :=
  match strOpt description_search with
  | none => true
  | some q => containsCI t.description q

/-- Row predicate of the minimum-amount filter (`is not None` check: a
supplied `0` does apply). -/
def minPred (min_amount : Option ℚ) (t : Transaction) : Bool :=
  match min_amount with
  | none => true
  | some m => decide (m ≤ t.amount)

/-- Row predicate of the maximum-amount filter. -/
def maxPred (max_amount : Option ℚ) (t : Transaction) : Bool :=
  match max_amount with
  | none => true
  | some m => decide (t.amount ≤ m)

/-- The conjunction of the six optional filters of `get_transactions`:
omitted filters are no-ops. -/
def queryPred (start_date end_date category description_search : Option String)
    (min_amount max_amount : Option ℚ) (t : Transaction) : Bool :=
  startPred start_date t && endPred end_date t && catPred category t &&
    descPred description_search t && minPred min_amount t && maxPred max_amount t

/-- Sum of the `amount` column. -/
def amountSum (l : List Transaction) : ℚ := (l.map (·.amount)).sum

/-- The result record of `DataManager.get_summary`. -/
structure Summary where
  total_income : ℚ
  total_expense : ℚ
  net_savings : ℚ
  transaction_count : Nat
  deriving DecidableEq, Repr

/-- The body of `DataManager.get_summary` applied to an already-filtered
frame `df`: all-zero on an empty frame, otherwise the Income and Expense
rows are summed separately and `net_savings` is their difference. -/
def summarize (df : List Transaction) : Summary :=
  if df.isEmpty then ⟨0, 0, 0, 0⟩
  else
    let inc := amountSum (df.filter fun t => t.category = Category.income.value)
    let exp := amountSum (df.filter fun t => t.category = Category.expense.value)
    ⟨inc, exp, inc - exp, df.length⟩

/-- The body of `DataManager.get_category_breakdown` applied to an
already-filtered frame: `df.groupby("category")["amount"].sum()` — one entry
per category value present, carrying the sum of the amounts of its rows.
(pandas sorts the group keys; the key order is irrelevant to the claims, so
we keep `dedup` order.) -/
def get_category_breakdown (df : List Transaction) : List (String × ℚ) :=
  if df.isEmpty then []
  else (df.map (·.category)).dedup.map
    fun c => (c, amountSum (df.filter fun t => t.category = c))

/-- A row of the legacy CSV format: the same four fields without an id. -/
structure LegacyRow where
  date : String
  amount : ℚ
  category : String
  description : String
  deriving DecidableEq, Repr

/-- `df.insert(0, "id", range(1, len(df) + 1))`: prepend sequential ids
starting at `n`. -/
def assignIds : Int → List LegacyRow → List Transaction
  | _, [] => []
  | n, r :: rs => ⟨n, r.date, r.amount, r.category, r.description⟩ :: assignIds (n + 1) rs

/-- `DataManager._migrate_csv`: read the legacy rows, prepend ids `1..n`,
copy the pre-migration file to `<original>.backup`, then overwrite the
original. Result: (new file content, backup file content) — the backup is
the pre-migration content because the copy happens before the overwrite. -/
def migrate_csv (orig : List LegacyRow) : List Transaction × List LegacyRow :=
  (assignIds 1 orig, orig)

/-- A transaction-shaped JSON object as consumed by `import_from_json`:
the four data fields, plus an `id` field that may be present in the file. -/
structure JsonItem where
  id : Option Int
  date : String
  amount : ℚ
  category : String
  description : String
  deriving DecidableEq, Repr

/-- One iteration of the `import_from_json` loop: try
`add_transaction` with the item's four data fields (never its `id`); on
success keep the grown file and bump the count, on `ValueError` keep going
with the state the failed `add` left behind. -/
def importStep (acc : List Transaction × Nat) (it : JsonItem) :
    List Transaction × Nat :=
  match add_transaction acc.1 it.date it.amount it.category it.description with
  | (rows', .ok _) => (rows', acc.2 + 1)
  | (rows', .error _) => (rows', acc.2)

/-- `DataManager.import_from_json`: fold the loop over the decoded items,
starting from the current file content and a zero count. -/
def import_from_json (rows : List Transaction) (items : List JsonItem) :
    List Transaction × Nat :=
  items.foldl importStep (rows, 0)

/-- `core.models.Transaction.__post_init__`'s extra checks (the GUI-side
dataclass): positive amount and a non-blank description. Date and category
are already typed there, so only these two checks exist. -/
def modelsPostInitOk (amount : ℚ) (description : String) : Bool :=
  decide (0 < amount) && !(description.trim = "")

/-- A sequence of `add` calls against the store, recording the evolving file
content and the ids of the transactions returned by the successful calls; a
call that raises a validation error leaves the file as the failed `add` left
it and returns nothing. -/
def runAdds : List Transaction → List (String × ℚ × String × String) →
    List Transaction × List Int
  | rows, [] => (rows, [])
  | rows, (d, a, c, ds) :: ops =>
    match add_transaction rows d a c ds with
    | (rows1, .ok t) =>
      let r := runAdds rows1 ops
      (r.1, t.id :: r.2)
    | (rows1, .error _) => runAdds rows1 ops

/-! ## Helper lemmas -/

lemma le_foldl_max_init (l : List Int) (a : Int) : a ≤ l.foldl max a := by
  induction l generalizing a with
  | nil => exact le_refl a
  | cons b bs ih => exact le_trans (le_max_left a b) (ih (max a b))

lemma le_foldl_max_mem (l : List Int) : ∀ (a x : Int), x ∈ l → x ≤ l.foldl max a := by
  induction l with
  | nil => intro a x hx; cases hx
  | cons b bs ih =>
    intro a x hx
    rcases List.mem_cons.mp hx with h | h
    · subst h
      exact le_trans (le_max_right a x) (le_foldl_max_init bs (max a x))
    · exact ih (max a b) x h

/-- Every id present in the store is strictly below the id the next `add`
will allocate. -/
lemma id_lt_get_next_id (rows : List Transaction) (t : Transaction) (ht : t ∈ rows) :
    t.id < get_next_id rows := by
  cases hmap : rows.map (·.id) with
  | nil =>
    cases rows with
    | nil => cases ht
    | cons u us => simp at hmap
  | cons i is =>
    have hmem : t.id ∈ i :: is := by
      rw [← hmap]; exact List.mem_map.mpr ⟨t, ht, rfl⟩
    have hle : t.id ≤ is.foldl max i := by
      rcases List.mem_cons.mp hmem with h | h
      · rw [h]; exact le_foldl_max_init is i
      · exact le_foldl_max_mem is i t.id h
    have hid : get_next_id rows = is.foldl max i + 1 := by
      unfold get_next_id
      rw [hmap]
    omega

/-- `add_transaction` either appends the freshly-validated transaction or
raises before touching the file. -/
lemma add_transaction_cases (rows : List Transaction) (d : String) (a : ℚ) (c ds : String) :
    (add_transaction rows d a c ds
      = (rows ++ [⟨get_next_id rows, d, a, c, ds⟩], .ok ⟨get_next_id rows, d, a, c, ds⟩))
    ∨ ∃ e, add_transaction rows d a c ds = (rows, .error e) := by
  unfold add_transaction
  cases hv : (Transaction.validate ⟨get_next_id rows, d, a, c, ds⟩) with
  | error e => exact Or.inr ⟨e, by simp [hv]⟩
  | ok u => exact Or.inl (by simp [hv])

/-- The ids returned and stored by a sequence of `add` calls stay pairwise
distinct, and every returned id strictly exceeds every id the store held
when the sequence began. -/
lemma runAdds_invariant (ops : List (String × ℚ × String × String)) :
    ∀ rows : List Transaction, (rows.map (·.id)).Nodup →
      ((runAdds rows ops).1.map (·.id)).Nodup ∧
      (runAdds rows ops).2.Nodup ∧
      (∀ i ∈ (runAdds rows ops).2, ∀ j ∈ rows.map (·.id), j < i) := by
  induction ops with
  | nil =>
    intro rows h
    exact ⟨h, List.nodup_nil, by intro i hi; cases hi⟩
  | cons op ops ih =>
    intro rows h
    obtain ⟨d, a, c, ds⟩ := op
    rcases add_transaction_cases rows d a c ds with hadd | ⟨e, hadd⟩
    · set t : Transaction := ⟨get_next_id rows, d, a, c, ds⟩ with ht
      have hfresh : ∀ j ∈ rows.map (·.id), j < t.id := by
        intro j hj
        obtain ⟨u, hu, rfl⟩ := List.mem_map.mp hj
        exact id_lt_get_next_id rows u hu
      have hnodup1 : ((rows ++ [t]).map (·.id)).Nodup := by
        rw [List.map_append]
        rw [List.nodup_append]
        refine ⟨h, List.nodup_singleton t.id, ?_⟩
        intro j hj hj'
        have hlt := hfresh j hj
        have hj2 : j = t.id := by simpa using hj'
        exact lt_irrefl _ (hj2 ▸ hlt)
      obtain ⟨ih1, ih2, ih3⟩ := ih (rows ++ [t]) hnodup1
      have hrun : runAdds rows ((d, a, c, ds) :: ops)
          = ((runAdds (rows ++ [t]) ops).1, t.id :: (runAdds (rows ++ [t]) ops).2) := by
        rw [runAdds, hadd]
      rw [hrun]
      refine ⟨ih1, ?_, ?_⟩
      · refine List.nodup_cons.mpr ⟨?_, ih2⟩
        intro hmem
        have hlt : t.id < t.id := by
          refine ih3 t.id hmem t.id ?_
          rw [List.map_append]
          simp
        exact lt_irrefl _ hlt
      · intro i hi j hj
        rcases List.mem_cons.mp hi with hi' | hi'
        · rw [hi']; exact hfresh j hj
        · refine ih3 i hi' j ?_
          rw [List.map_append]
          exact List.mem_append_left _ hj
    · have hrun : runAdds rows ((d, a, c, ds) :: ops) = runAdds rows ops := by
        rw [runAdds, hadd]
      rw [hrun]
      exact ih rows h

/-- Appending a row whose id strictly exceeds every stored id preserves
distinctness of the stored ids. -/
lemma nodup_ids_append_fresh (rows : List Transaction) (t : Transaction)
    (h : (rows.map (·.id)).Nodup) (hf : ∀ u ∈ rows, u.id < t.id) :
    ((rows ++ [t]).map (·.id)).Nodup := by
  rw [List.map_append, List.nodup_append]
  refine ⟨h, List.nodup_singleton t.id, ?_⟩
  intro j hj hj'
  obtain ⟨u, hu, rfl⟩ := List.mem_map.mp hj
  have hlt := hf u hu
  have hj2 : u.id = t.id := by simpa using hj'
  exact lt_irrefl _ (hj2 ▸ hlt)

/-- Forgetting the id column of a migrated row. -/
def stripIds (t : Transaction) : LegacyRow :=
  ⟨t.date, t.amount, t.category, t.description⟩

lemma assignIds_ids : ∀ (l : List LegacyRow) (n : Int),
    (assignIds n l).map (·.id) = (List.range l.length).map (fun i : Nat => n + (i : Int)) := by
  intro l
  induction l with
  | nil => intro n; simp [assignIds]
  | cons r rs ih =>
    intro n
    simp only [assignIds, List.map_cons, List.length_cons, List.range_succ_eq_map,
      List.map_map]
    have hfun : ((fun i : Nat => n + (i : Int)) ∘ (fun i : Nat => i + 1))
        = fun i : Nat => (n + 1) + (i : Int) := by
      funext i
      simp only [Function.comp]
      push_cast
      ring
    rw [hfun, ih (n + 1)]
    simp

lemma assignIds_strip : ∀ (l : List LegacyRow) (n : Int),
    (assignIds n l).map stripIds = l := by
  intro l
  induction l with
  | nil => intro n; simp [assignIds]
  | cons r rs ih => intro n; simp [assignIds, stripIds, ih (n + 1)]

/-- The four data fields of a stored row. -/
def rowFields (t : Transaction) : String × ℚ × String × String :=
  (t.date, t.amount, t.category, t.description)

/-- The four data fields of an imported JSON object. -/
def itemFields (it : JsonItem) : String × ℚ × String × String :=
  (it.date, it.amount, it.category, it.description)

/-- Whether a JSON object's data fields pass the Record Model validation
(the validation never reads the id, so id 0 is as good as any). -/
def itemValid (it : JsonItem) : Bool :=
  match Transaction.validate ⟨0, it.date, it.amount, it.category, it.description⟩ with
  | .ok _ => true
  | .error _ => false

lemma itemValid_true {it : JsonItem} (h : itemValid it = true) :
    Transaction.validate ⟨0, it.date, it.amount, it.category, it.description⟩ = .ok () := by
  unfold itemValid at h
  cases hv : Transaction.validate ⟨0, it.date, it.amount, it.category, it.description⟩ with
  | ok u => cases u; rfl
  | error e => simp only [hv] at h; simp at h

lemma itemValid_false {it : JsonItem} (h : itemValid it = false) :
    ∃ e, Transaction.validate ⟨0, it.date, it.amount, it.category, it.description⟩
      = .error e := by
  unfold itemValid at h
  cases hv : Transaction.validate ⟨0, it.date, it.amount, it.category, it.description⟩ with
  | ok u => simp only [hv] at h; simp at h
  | error e => exact ⟨e, rfl⟩

/-- Behaviour of the import loop from an arbitrary accumulator: the count
grows by the number of valid items, the file gains exactly the valid items'
data fields in order, and distinctness of the stored ids is preserved. -/
lemma import_loop_spec : ∀ (items : List JsonItem) (rows : List Transaction) (n : Nat),
    (items.foldl importStep (rows, n)).2 = n + (items.filter itemValid).length ∧
    (items.foldl importStep (rows, n)).1.map rowFields
      = rows.map rowFields ++ (items.filter itemValid).map itemFields ∧
    ((rows.map (·.id)).Nodup → ((items.foldl importStep (rows, n)).1.map (·.id)).Nodup) := by
  intro items
  induction items with
  | nil => intro rows n; simp
  | cons it rest ih =>
    intro rows n
    rw [List.foldl_cons]
    cases hval : itemValid it with
    | true =>
      have hok : Transaction.validate
          ⟨get_next_id rows, it.date, it.amount, it.category, it.description⟩
          = .ok () := itemValid_true hval
      have hstep : importStep (rows, n) it
          = (rows ++ [⟨get_next_id rows, it.date, it.amount, it.category, it.description⟩],
             n + 1) := by
        simp [importStep, add_transaction, hok]
      rw [hstep]
      obtain ⟨ih1, ih2, ih3⟩ :=
        ih (rows ++ [⟨get_next_id rows, it.date, it.amount, it.category, it.description⟩])
          (n + 1)
      refine ⟨?_, ?_, ?_⟩
      · rw [ih1, List.filter_cons]
        simp only [hval, if_true]
        rw [List.length_cons]
        omega
      · rw [ih2, List.filter_cons]
        simp only [hval, if_true]
        rw [List.map_append, List.map_cons]
        simp [rowFields, itemFields]
      · intro hnodup
        refine ih3 (nodup_ids_append_fresh rows _ hnodup ?_)
        intro u hu
        exact id_lt_get_next_id rows u hu
    | false =>
      obtain ⟨e, herr⟩ := itemValid_false hval
      have herr' : Transaction.validate
          ⟨get_next_id rows, it.date, it.amount, it.category, it.description⟩
          = .error e := herr
      have hstep : importStep (rows, n) it = (rows, n) := by
        simp [importStep, add_transaction, herr']
      rw [hstep]
      obtain ⟨ih1, ih2, ih3⟩ := ih rows n
      refine ⟨?_, ?_, ih3⟩
      · rw [ih1, List.filter_cons]
        simp [hval]
      · rw [ih2, List.filter_cons]
        simp [hval]

lemma startDateStage_some (sd : Option String) (l df : List Transaction)
    (h : startDateStage sd l = some df) : df = l.filter (startPred sd) := by
  unfold startDateStage at h
  cases hso : strOpt sd with
  | none =>
    simp only [hso] at h
    obtain rfl : l = df := Option.some.inj h
    exact (List.filter_eq_self.mpr (by intro t _; simp [startPred, hso])).symm
  | some s =>
    simp only [hso] at h
    cases hp : strptimeDMY s with
    | none => simp only [hp] at h; exact Option.noConfusion h
    | some d =>
      simp only [hp] at h
      obtain rfl := Option.some.inj h
      exact (List.filter_congr (by intro t _; simp [startPred, hso, dateKeyOf, hp])).symm

lemma endDateStage_some (ed : Option String) (l df : List Transaction)
    (h : endDateStage ed l = some df) : df = l.filter (endPred ed) := by
  unfold endDateStage at h
  cases hso : strOpt ed with
  | none =>
    simp only [hso] at h
    obtain rfl : l = df := Option.some.inj h
    exact (List.filter_eq_self.mpr (by intro t _; simp [endPred, hso])).symm
  | some s =>
    simp only [hso] at h
    cases hp : strptimeDMY s with
    | none => simp only [hp] at h; exact Option.noConfusion h
    | some d =>
      simp only [hp] at h
      obtain rfl := Option.some.inj h
      exact (List.filter_congr (by intro t _; simp [endPred, hso, dateKeyOf, hp])).symm

lemma categoryStage_eq (cat : Option String) (l : List Transaction) :
    categoryStage cat l = l.filter (catPred cat) := by
  unfold categoryStage
  cases hso : strOpt cat with
  | none => exact (List.filter_eq_self.mpr (by intro t _; simp [catPred, hso])).symm
  | some c => exact List.filter_congr (by intro t _; simp [catPred, hso])

lemma descriptionStage_eq (ds : Option String) (l : List Transaction) :
    descriptionStage ds l = l.filter (descPred ds) := by
  unfold descriptionStage
  cases hso : strOpt ds with
  | none => exact (List.filter_eq_self.mpr (by intro t _; simp [descPred, hso])).symm
  | some q => exact List.filter_congr (by intro t _; simp [descPred, hso])

lemma minAmountStage_eq (m : Option ℚ) (l : List Transaction) :
    minAmountStage m l = l.filter (minPred m) := by
  unfold minAmountStage
  cases m with
  | none => exact (List.filter_eq_self.mpr (by intro t _; simp [minPred])).symm
  | some m => exact List.filter_congr (by intro t _; simp [minPred])

lemma maxAmountStage_eq (m : Option ℚ) (l : List Transaction) :
    maxAmountStage m l = l.filter (maxPred m) := by
  unfold maxAmountStage
  cases m with
  | none => exact (List.filter_eq_self.mpr (by intro t _; simp [maxPred])).symm
  | some m => exact List.filter_congr (by intro t _; simp [maxPred])

lemma amountSum_nil : amountSum [] = 0 := rfl

lemma amountSum_cons (t : Transaction) (ts : List Transaction) :
    amountSum (t :: ts) = t.amount + amountSum ts := by
  simp [amountSum]

lemma sum_map_add_pointwise (D : List String) (f g : String → ℚ) :
    (D.map (fun c => f c + g c)).sum = (D.map f).sum + (D.map g).sum := by
  induction D with
  | nil => simp
  | cons c cs ih =>
    simp only [List.map_cons, List.sum_cons, ih]
    ring

lemma sum_map_ite_zero_of_not_mem (D : List String) (k : String) (v : ℚ)
    (hk : k ∉ D) : (D.map (fun c => if k = c then v else 0)).sum = 0 := by
  induction D with
  | nil => simp
  | cons c cs ih =>
    have hne : k ≠ c := fun h => hk (h ▸ List.mem_cons_self c cs)
    have hk' : k ∉ cs := fun h => hk (List.mem_cons_of_mem c h)
    simp [hne, ih hk']

lemma sum_map_ite_single (D : List String) (k : String) (v : ℚ)
    (hn : D.Nodup) (hk : k ∈ D) :
    (D.map (fun c => if k = c then v else 0)).sum = v := by
  induction D with
  | nil => cases hk
  | cons c cs ih =>
    rcases List.mem_cons.mp hk with h | h
    · subst h
      have hout : k ∉ cs := (List.nodup_cons.mp hn).1
      simp [sum_map_ite_zero_of_not_mem cs k v hout]
    · have hne : k ≠ c := by
        intro he
        exact (List.nodup_cons.mp hn).1 (he ▸ h)
      simp [hne, ih (List.nodup_cons.mp hn).2 h]

lemma filter_category_eq_nil (l : List Transaction) (k : String)
    (hk : k ∉ l.map (·.category)) :
    l.filter (fun t => t.category = k) = [] := by
  induction l with
  | nil => rfl
  | cons t ts ih =>
    have hne : t.category ≠ k := by
      intro he
      exact hk (List.mem_map.mpr ⟨t, List.mem_cons_self t ts, he⟩)
    have hk' : k ∉ ts.map (·.category) := by
      intro h
      exact hk (List.mem_cons_of_mem _ h)
    simp [List.filter_cons, hne, ih hk']

lemma amountSum_filter_cons (t : Transaction) (ts : List Transaction) (c : String) :
    amountSum ((t :: ts).filter (fun u => u.category = c))
      = (if t.category = c then t.amount else 0)
        + amountSum (ts.filter (fun u => u.category = c)) := by
  by_cases h : t.category = c
  · simp [List.filter_cons, h, amountSum_cons]
  · simp [List.filter_cons, h]

/-- `groupby("category").sum()` totals the full frame: summing the
per-category sums over the distinct categories present recovers the sum of
all amounts. -/
lemma breakdown_group_sum (l : List Transaction) :
    ((l.map (·.category)).dedup.map
      (fun c => amountSum (l.filter fun t => t.category = c))).sum = amountSum l := by
  induction l with
  | nil => simp [amountSum]
  | cons t ts ih =>
    have hpt : (fun c => amountSum ((t :: ts).filter fun u => u.category = c))
        = fun c => (if t.category = c then t.amount else 0)
            + amountSum (ts.filter fun u => u.category = c) := by
      funext c
      exact amountSum_filter_cons t ts c
    by_cases hmem : t.category ∈ ts.map (·.category)
    · rw [List.map_cons, List.dedup_cons_of_mem hmem, hpt, sum_map_add_pointwise,
        sum_map_ite_single _ _ _ (List.nodup_dedup _) (List.mem_dedup.mpr hmem), ih,
        amountSum_cons]
    · rw [List.map_cons, List.dedup_cons_of_not_mem hmem, hpt, List.map_cons,
        List.sum_cons, sum_map_add_pointwise,
        sum_map_ite_zero_of_not_mem _ _ _ (fun h => hmem (List.mem_dedup.mp h)), ih,
        amountSum_cons]
      have hnil : ts.filter (fun u => u.category = t.category) = [] :=
        filter_category_eq_nil ts t.category hmem
      simp [hnil, amountSum_nil]

/-- When every row is Income or Expense, the total amount splits into the
Income sum plus the Expense sum. -/
lemma amountSum_partition (l : List Transaction)
    (h : ∀ t ∈ l, t.category = Category.income.value ∨ t.category = Category.expense.value) :
    amountSum l
      = amountSum (l.filter fun t => t.category = Category.income.value)
        + amountSum (l.filter fun t => t.category = Category.expense.value) := by
  induction l with
  | nil => simp [amountSum]
  | cons t ts ih =>
    have ht := h t (List.mem_cons_self t ts)
    have hts : ∀ u ∈ ts, u.category = Category.income.value
        ∨ u.category = Category.expense.value :=
      fun u hu => h u (List.mem_cons_of_mem t hu)
    rcases ht with h1 | h1
    · have hne : t.category ≠ Category.expense.value := by
        rw [h1]
        simp [Category.value]
      have hfi : (t :: ts).filter (fun u => u.category = Category.income.value)
          = t :: ts.filter (fun u => u.category = Category.income.value) := by
        simp [List.filter_cons, h1]
      have hfe : (t :: ts).filter (fun u => u.category = Category.expense.value)
          = ts.filter (fun u => u.category = Category.expense.value) := by
        simp [List.filter_cons, hne]
      rw [amountSum_cons, hfi, hfe, amountSum_cons, ih hts]
      ring
    · have hne : t.category ≠ Category.income.value := by
        rw [h1]
        simp [Category.value]
      have hfi : (t :: ts).filter (fun u => u.category = Category.income.value)
          = ts.filter (fun u => u.category = Category.income.value) := by
        simp [List.filter_cons, hne]
      have hfe : (t :: ts).filter (fun u => u.category = Category.expense.value)
          = t :: ts.filter (fun u => u.category = Category.expense.value) := by
        simp [List.filter_cons, h1]
      rw [amountSum_cons, hfi, hfe, amountSum_cons, ih hts]
      ring

/-! ## Claims -/

/-- **C1** (counterexample). Starting from the empty store: `add` assigns id
1, then id 2; `delete 2` succeeds; yet the very next `add` assigns id 2
again — the id freed by the delete is reused, contradicting "after
`delete(i)` no subsequent `add` ever assigns id `i`". -/
theorem delete_then_add_reuses_id :
    add_transaction [] "01-01-2026" 5 "Income" "a"
      = ([⟨1, "01-01-2026", 5, "Income", "a"⟩], .ok ⟨1, "01-01-2026", 5, "Income", "a"⟩) ∧
    add_transaction [⟨1, "01-01-2026", 5, "Income", "a"⟩] "02-01-2026" 6 "Income" "b"
      = ([⟨1, "01-01-2026", 5, "Income", "a"⟩, ⟨2, "02-01-2026", 6, "Income", "b"⟩],
          .ok ⟨2, "02-01-2026", 6, "Income", "b"⟩) ∧
    delete_transaction
        [⟨1, "01-01-2026", 5, "Income", "a"⟩, ⟨2, "02-01-2026", 6, "Income", "b"⟩] 2
      = ([⟨1, "01-01-2026", 5, "Income", "a"⟩], true) ∧
    (add_transaction [⟨1, "01-01-2026", 5, "Income", "a"⟩] "03-01-2026" 7 "Income" "c").2
      = .ok ⟨2, "03-01-2026", 7, "Income", "c"⟩ := by
  refine ⟨by decide, by decide, by decide, by decide⟩

/-- **C1** (amended). Each successful `add` assigns an id strictly greater
than every id currently stored (`max(existing ids) + 1`), so an assigned id
never collides with a live row; but ids are not strictly increasing over the
store's lifetime — deleting the row holding the maximal id lets the next
`add` reassign that id. -/
theorem add_id_exceeds_all_current (rows : List Transaction) (d : String) (a : ℚ)
    (c ds : String) (rows' : List Transaction) (t' : Transaction)
    (h : add_transaction rows d a c ds = (rows', .ok t')) :
    ∀ t ∈ rows, t.id < t'.id := by
  rcases add_transaction_cases rows d a c ds with hadd | ⟨e, hadd⟩
  · rw [hadd] at h
    have ht' : t' = ⟨get_next_id rows, d, a, c, ds⟩ := by
      have := (Prod.mk.injEq _ _ _ _).mp h.symm
      exact (Except.ok.injEq _ _).mp this.2
    intro t ht
    rw [ht']
    exact id_lt_get_next_id rows t ht
  · rw [hadd] at h
    have := (Prod.mk.injEq _ _ _ _).mp h
    cases this.2

/-- Witness for the amended C1 theorem at a concrete successful `add`. -/
theorem add_id_exceeds_all_current_witness :
    (⟨3, "05-01-2026", 9, "Expense", "w"⟩ : Transaction).id
      < (⟨4, "06-01-2026", 2, "Income", "z"⟩ : Transaction).id :=
  add_id_exceeds_all_current [⟨3, "05-01-2026", 9, "Expense", "w"⟩] "06-01-2026" 2 "Income" "z"
    [⟨3, "05-01-2026", 9, "Expense", "w"⟩, ⟨4, "06-01-2026", 2, "Income", "z"⟩]
    ⟨4, "06-01-2026", 2, "Income", "z"⟩ (by decide)
    ⟨3, "05-01-2026", 9, "Expense", "w"⟩ (by decide)

/-- **C3**. From any store whose ids are pairwise distinct, any sequence of
`add` calls leaves the stored ids pairwise distinct, and the ids returned by
the successful calls are pairwise distinct as well. -/
theorem adds_preserve_unique_ids (rows : List Transaction)
    (ops : List (String × ℚ × String × String))
    (h : (rows.map (·.id)).Nodup) :
    ((runAdds rows ops).1.map (·.id)).Nodup ∧ (runAdds rows ops).2.Nodup := by
  obtain ⟨h1, h2, _⟩ := runAdds_invariant ops rows h
  exact ⟨h1, h2⟩

/-- Witness for C3: three adds (one of them invalid and skipped) from the
empty store give pairwise-distinct stored and returned ids. -/
theorem adds_preserve_unique_ids_witness :
    ((runAdds []
        [("01-01-2026", 5, "Income", "a"), ("bad-date", 6, "Income", "b"),
         ("02-01-2026", 7, "Expense", "c")]).1.map (·.id)).Nodup ∧
    (runAdds []
        [("01-01-2026", 5, "Income", "a"), ("bad-date", 6, "Income", "b"),
         ("02-01-2026", 7, "Expense", "c")]).2.Nodup :=
  adds_preserve_unique_ids []
    [("01-01-2026", 5, "Income", "a"), ("bad-date", 6, "Income", "b"),
     ("02-01-2026", 7, "Expense", "c")] (by decide)

/-- **C4**. `add` rejects each invalid input with the matching error kind:
an unparsable date raises `InvalidDate`; a parsable date with non-positive
amount raises `InvalidAmount`; a parsable date and positive amount with a
category outside {Income, Expense} raises `InvalidCategory`. -/
theorem add_rejects_invalid_input (rows : List Transaction) (date : String)
    (amount : ℚ) (category description : String) :
    (strptimeDMY date = none →
      (add_transaction rows date amount category description).2 = .error .invalidDate) ∧
    ((strptimeDMY date).isSome → amount ≤ 0 →
      (add_transaction rows date amount category description).2 = .error .invalidAmount) ∧
    ((strptimeDMY date).isSome → 0 < amount → category ∉ valid_categories →
      (add_transaction rows date amount category description).2 = .error .invalidCategory) := by
  refine ⟨?_, ?_, ?_⟩
  · intro h
    simp [add_transaction, Transaction.validate, h]
  · intro h hle
    rw [Option.isSome_iff_exists] at h
    obtain ⟨dd, hd⟩ := h
    simp [add_transaction, Transaction.validate, hd, hle]
  · intro h hpos hcat
    rw [Option.isSome_iff_exists] at h
    obtain ⟨dd, hd⟩ := h
    simp [add_transaction, Transaction.validate, hd, not_le.mpr hpos, hcat]

/-- Witness for C4: the spec's three concrete rejected inputs. -/
theorem add_rejects_invalid_input_witness :
    (add_transaction [] "2026-01-28" 10 "Income" "x").2 = .error .invalidDate ∧
    (add_transaction [] "28-01-2026" 0 "Income" "x").2 = .error .invalidAmount ∧
    (add_transaction [] "28-01-2026" 10 "Savings" "x").2 = .error .invalidCategory :=
  ⟨(add_rejects_invalid_input [] "2026-01-28" 10 "Income" "x").1 (by decide),
   (add_rejects_invalid_input [] "28-01-2026" 0 "Income" "x").2.1 (by decide) (by decide),
   (add_rejects_invalid_input [] "28-01-2026" 10 "Savings" "x").2.2 (by decide) (by decide)
     (by decide)⟩

/-- **C9**. The store-engine Record Model (`data_manager.Transaction`)
accepts a transaction with an empty description whenever the date parses,
the amount is positive and the category is one of the two enumerated
values: its validation never inspects the description. -/
theorem validate_accepts_empty_description (i : Int) (date : String) (amount : ℚ)
    (category : String) (h1 : (strptimeDMY date).isSome) (h2 : 0 < amount)
    (h3 : category ∈ valid_categories) :
    Transaction.validate ⟨i, date, amount, category, ""⟩ = .ok () := by
  rw [Option.isSome_iff_exists] at h1
  obtain ⟨dd, hd⟩ := h1
  simp [Transaction.validate, hd, not_le.mpr h2, h3]

/-- Witness for C9 at a concrete valid input with empty description. -/
theorem validate_accepts_empty_description_witness :
    Transaction.validate ⟨1, "28-01-2026", 10, "Income", ""⟩ = .ok () :=
  validate_accepts_empty_description 1 "28-01-2026" 10 "Income" (by decide) (by decide)
    (by decide)

/-- **C10**. `add` validates before it opens the file for appending, so a
failed `add` propagates the validation error and leaves the backing store
unchanged. -/
theorem failed_add_leaves_store_unchanged (rows : List Transaction) (date : String)
    (amount : ℚ) (category description : String) (e : ValidationError)
    (h : Transaction.validate ⟨1, date, amount, category, description⟩ = .error e) :
    add_transaction rows date amount category description = (rows, .error e) := by
  have h' : Transaction.validate
      ⟨get_next_id rows, date, amount, category, description⟩ = .error e := h
  simp [add_transaction, h']

/-- Witness for C10: a failed add (zero amount) at a concrete nonempty
store, which is returned unchanged. -/
theorem failed_add_leaves_store_unchanged_witness :
    add_transaction [⟨1, "01-01-2026", 5, "Income", "a"⟩] "02-01-2026" 0 "Income" "b"
      = ([⟨1, "01-01-2026", 5, "Income", "a"⟩], .error .invalidAmount) :=
  failed_add_leaves_store_unchanged [⟨1, "01-01-2026", 5, "Income", "a"⟩] "02-01-2026" 0
    "Income" "b" .invalidAmount (by decide)

/-- **C2**. On a store with pairwise-distinct ids, `update` returns `true`
exactly when a row with the requested id exists and the row obtained by
merging the supplied fields into it passes validation; whenever it returns
`false` the file is left entirely unchanged — the update never partially
applies. -/
theorem update_returns_true_iff_and_is_atomic (rows : List Transaction) (tid : Int)
    (d : Option String) (a : Option ℚ) (c ds : Option String)
    (hn : (rows.map (·.id)).Nodup) :
    ((update_transaction rows tid d a c ds).2 = true ↔
      ∃ t ∈ rows, t.id = tid ∧ (mergeRow t d a c ds).validate = .ok ()) ∧
    ((update_transaction rows tid d a c ds).2 = false →
      (update_transaction rows tid d a c ds).1 = rows) := by
  constructor
  · constructor
    · intro htrue
      unfold update_transaction at htrue
      cases hf : rows.find? (fun t => t.id == tid) with
      | none => simp only [hf] at htrue; simp at htrue
      | some t =>
        simp only [hf] at htrue
        cases hv : (mergeRow t d a c ds).validate with
        | error e => simp only [hv] at htrue; simp at htrue
        | ok u =>
          refine ⟨t, List.mem_of_find?_eq_some hf, ?_, ?_⟩
          · have hp := List.find?_some hf
            simpa using hp
          · cases u; exact hv
    · rintro ⟨t, htmem, htid, hval⟩
      unfold update_transaction
      cases hf : rows.find? (fun u => u.id == tid) with
      | none =>
        have hnone := List.find?_eq_none.mp hf t htmem
        simp [htid] at hnone
      | some t' =>
        have ht'id : t'.id = tid := by
          have hp := List.find?_some hf
          simpa using hp
        have heq : t' = t := by
          refine List.inj_on_of_nodup_map hn (List.mem_of_find?_eq_some hf) htmem ?_
          show t'.id = t.id
          rw [ht'id, htid]
        subst heq
        simp only [hval]
  · intro hfalse
    unfold update_transaction at hfalse ⊢
    cases hf : rows.find? (fun t => t.id == tid) with
    | none => simp only [hf]
    | some t =>
      simp only [hf] at hfalse ⊢
      cases hv : (mergeRow t d a c ds).validate with
      | error e => simp only [hv]
      | ok u => simp only [hv] at hfalse; simp at hfalse

/-- Witness for C2: the spec's update-atomicity scenario — setting a
negative amount on an existing row returns `false` and leaves the stored
row unchanged. -/
theorem update_returns_true_iff_and_is_atomic_witness :
    (update_transaction [⟨1, "28-01-2026", 10, "Income", "x"⟩] 1 none (some (-5)) none
        none).2 = false ∧
    (update_transaction [⟨1, "28-01-2026", 10, "Income", "x"⟩] 1 none (some (-5)) none
        none).1 = [⟨1, "28-01-2026", 10, "Income", "x"⟩] :=
  ⟨by decide,
   (update_returns_true_iff_and_is_atomic [⟨1, "28-01-2026", 10, "Income", "x"⟩] 1 none
      (some (-5)) none none (by decide)).2 (by decide)⟩

/-- **C7**. Migrating a non-empty legacy file assigns the sequential ids
`1..n` to the `n` rows in their original order, keeps every row's data
fields unchanged under the prepended id column, and writes a backup whose
content is identical to the pre-migration file (the copy is taken before
the original is overwritten). -/
theorem migration_assigns_sequential_ids_and_backs_up (orig : List LegacyRow)
    (h : orig ≠ []) :
    ((migrate_csv orig).1.map (·.id))
      = (List.range orig.length).map (fun i : Nat => (i : Int) + 1) ∧
    ((migrate_csv orig).1.map stripIds = orig) ∧
    (migrate_csv orig).2 = orig := by
  refine ⟨?_, assignIds_strip orig 1, rfl⟩
  have hids := assignIds_ids orig 1
  have hfun : (fun i : Nat => (1 : Int) + (i : Int)) = fun i : Nat => (i : Int) + 1 := by
    funext i
    ring
  rw [show (migrate_csv orig).1 = assignIds 1 orig from rfl, hids, hfun]

/-- Witness for C7: the spec's three-row legacy file receives ids `1,2,3`
in file order, with the original content preserved both in the migrated
rows and in the backup. -/
theorem migration_assigns_sequential_ids_and_backs_up_witness :
    ((migrate_csv [⟨"01-01-2026", 1, "Income", "a"⟩, ⟨"02-01-2026", 2, "Expense", "b"⟩,
        ⟨"03-01-2026", 3, "Income", "c"⟩]).1.map (·.id)
      = (List.range 3).map (fun i : Nat => (i : Int) + 1)) ∧
    ((migrate_csv [⟨"01-01-2026", 1, "Income", "a"⟩, ⟨"02-01-2026", 2, "Expense", "b"⟩,
        ⟨"03-01-2026", 3, "Income", "c"⟩]).1.map stripIds
      = [⟨"01-01-2026", 1, "Income", "a"⟩, ⟨"02-01-2026", 2, "Expense", "b"⟩,
         ⟨"03-01-2026", 3, "Income", "c"⟩]) ∧
    (migrate_csv [⟨"01-01-2026", 1, "Income", "a"⟩, ⟨"02-01-2026", 2, "Expense", "b"⟩,
        ⟨"03-01-2026", 3, "Income", "c"⟩]).2
      = [⟨"01-01-2026", 1, "Income", "a"⟩, ⟨"02-01-2026", 2, "Expense", "b"⟩,
         ⟨"03-01-2026", 3, "Income", "c"⟩] :=
  migration_assigns_sequential_ids_and_backs_up
    [⟨"01-01-2026", 1, "Income", "a"⟩, ⟨"02-01-2026", 2, "Expense", "b"⟩,
     ⟨"03-01-2026", 3, "Income", "c"⟩] (by decide)

/-- **C8**. `importJSON` adds exactly the items whose data fields pass
validation (in order, each failing item skipped without aborting), returns
the count of successfully added rows, keeps the stored ids pairwise
distinct (every added row gets a freshly allocated id), and its result is
entirely independent of any `id` field carried by the items. -/
theorem import_adds_exactly_valid_items (rows : List Transaction)
    (items : List JsonItem) (hn : (rows.map (·.id)).Nodup) :
    (import_from_json rows items).2 = (items.filter itemValid).length ∧
    (import_from_json rows items).1.map rowFields
      = rows.map rowFields ++ (items.filter itemValid).map itemFields ∧
    ((import_from_json rows items).1.map (·.id)).Nodup ∧
    (∀ f : JsonItem → Option Int,
      import_from_json rows
          (items.map fun it => ⟨f it, it.date, it.amount, it.category, it.description⟩)
        = import_from_json rows items) := by
  obtain ⟨h1, h2, h3⟩ := import_loop_spec items rows 0
  refine ⟨by rw [show import_from_json rows items = items.foldl importStep (rows, 0) from
    rfl, h1]; omega, h2, h3 hn, ?_⟩
  intro f
  show (items.map fun it =>
      (⟨f it, it.date, it.amount, it.category, it.description⟩ : JsonItem)).foldl
      importStep (rows, 0) = items.foldl importStep (rows, 0)
  rw [List.foldl_map]
  rfl

/-- Witness for C8: the spec's import-tolerance scenario — one valid and
one invalid (negative-amount) record: the count is `1` and the store gains
exactly one row, under a freshly allocated id `2` rather than the ids `7`
and `9` carried by the JSON objects. -/
theorem import_adds_exactly_valid_items_witness :
    (import_from_json [⟨1, "28-01-2026", 10, "Income", "x"⟩]
        [⟨some 7, "28-01-2026", 10, "Income", "ok"⟩,
         ⟨some 9, "28-01-2026", -3, "Expense", "bad"⟩]).2 = 1 ∧
    (import_from_json [⟨1, "28-01-2026", 10, "Income", "x"⟩]
        [⟨some 7, "28-01-2026", 10, "Income", "ok"⟩,
         ⟨some 9, "28-01-2026", -3, "Expense", "bad"⟩]).1
      = [⟨1, "28-01-2026", 10, "Income", "x"⟩, ⟨2, "28-01-2026", 10, "Income", "ok"⟩] ∧
    ((import_from_json [⟨1, "28-01-2026", 10, "Income", "x"⟩]
        [⟨some 7, "28-01-2026", 10, "Income", "ok"⟩,
         ⟨some 9, "28-01-2026", -3, "Expense", "bad"⟩]).1.map (·.id)).Nodup :=
  ⟨by decide, by decide,
   (import_adds_exactly_valid_items [⟨1, "28-01-2026", 10, "Income", "x"⟩]
      [⟨some 7, "28-01-2026", 10, "Income", "ok"⟩,
       ⟨some 9, "28-01-2026", -3, "Expense", "bad"⟩] (by decide)).2.2.1⟩

/-- **C5**. Whenever `get_transactions` returns a frame, that frame is
exactly the rows satisfying the conjunction of all supplied filter
predicates — omitted filters are no-ops, date bounds are inclusive
comparisons on the parsed calendar date (`Date.key` preserves `datetime`
order), and amount bounds are inclusive. -/
theorem query_returns_conjunction_of_filters (rows : List Transaction)
    (sd ed cat ds : Option String) (minA maxA : Option ℚ)
    (result : List Transaction)
    (h : get_transactions rows sd ed cat ds minA maxA = some result) :
    result = rows.filter (queryPred sd ed cat ds minA maxA) := by
  unfold get_transactions at h
  cases hempty : rows.isEmpty with
  | true =>
    obtain rfl : rows = [] := List.isEmpty_iff.mp hempty
    have h2 : ([] : List Transaction) = result := by simpa using h
    rw [← h2]
    rfl
  | false =>
    simp only [hempty] at h
    cases hall : rows.all (fun t => (strptimeDMY t.date).isSome) with
    | false => simp [hall] at h
    | true =>
      simp only [hall] at h
      cases h1 : startDateStage sd rows with
      | none => simp only [h1] at h; exact Option.noConfusion h
      | some df1 =>
        simp only [h1] at h
        cases h2 : endDateStage ed df1 with
        | none => simp only [h2] at h; exact Option.noConfusion h
        | some df2 =>
          simp only [h2] at h
          obtain rfl := Option.some.inj h
          rw [maxAmountStage_eq, minAmountStage_eq, descriptionStage_eq,
            categoryStage_eq, endDateStage_some ed df1 df2 h2,
            startDateStage_some sd rows df1 h1, List.filter_filter,
            List.filter_filter, List.filter_filter, List.filter_filter,
            List.filter_filter]
          refine List.filter_congr ?_
          intro t _
          simp only [queryPred]
          cases startPred sd t <;> cases endPred ed t <;> cases catPred cat t <;>
            cases descPred ds t <;> cases minPred minA t <;> cases maxPred maxA t <;>
            rfl

/-- Witness for C5: the spec's three-row dataset under the date-range query
`10-01-2026 ≤ date ≤ 20-01-2026` yields exactly the Rent row, which is also
exactly the conjunction-filter of the dataset. -/
theorem query_returns_conjunction_of_filters_witness :
    get_transactions
        [⟨1, "01-01-2026", 100, "Income", "Salary"⟩,
         ⟨2, "15-01-2026", 50, "Expense", "Rent"⟩,
         ⟨3, "31-01-2026", 75, "Income", "Bonus"⟩]
        (some "10-01-2026") (some "20-01-2026") none none none none
      = some [⟨2, "15-01-2026", 50, "Expense", "Rent"⟩] ∧
    [⟨2, "15-01-2026", 50, "Expense", "Rent"⟩]
      = ([⟨1, "01-01-2026", 100, "Income", "Salary"⟩,
          ⟨2, "15-01-2026", 50, "Expense", "Rent"⟩,
          ⟨3, "31-01-2026", 75, "Income", "Bonus"⟩] : List Transaction).filter
          (queryPred (some "10-01-2026") (some "20-01-2026") none none none none) :=
  ⟨by decide,
   query_returns_conjunction_of_filters
     [⟨1, "01-01-2026", 100, "Income", "Salary"⟩,
      ⟨2, "15-01-2026", 50, "Expense", "Rent"⟩,
      ⟨3, "31-01-2026", 75, "Income", "Bonus"⟩]
     (some "10-01-2026") (some "20-01-2026") none none none none
     [⟨2, "15-01-2026", 50, "Expense", "Rent"⟩] (by decide)⟩

/-- **C6**. For every frame whose categories lie in {Income, Expense} (as
every query result over a valid store does), the summary satisfies
`net_savings = total_income - total_expense`, and the values of the
category breakdown sum to `total_income + total_expense`. -/
theorem aggregation_identities (df : List Transaction)
    (h : ∀ t ∈ df, t.category = Category.income.value
        ∨ t.category = Category.expense.value) :
    (summarize df).net_savings
      = (summarize df).total_income - (summarize df).total_expense ∧
    ((get_category_breakdown df).map Prod.snd).sum
      = (summarize df).total_income + (summarize df).total_expense := by
  cases df with
  | nil =>
    constructor
    · simp [summarize]
    · simp [summarize, get_category_breakdown]
  | cons t ts =>
    constructor
    · rfl
    · have hb : ((get_category_breakdown (t :: ts)).map Prod.snd)
          = ((t :: ts).map (·.category)).dedup.map
              (fun c => amountSum ((t :: ts).filter fun u => u.category = c)) := by
        simp [get_category_breakdown, List.map_map, Function.comp]
      rw [hb, breakdown_group_sum, amountSum_partition (t :: ts) h]
      rfl

/-- Witness for C6 at the spec's three-row dataset: `125 = 175 - 50` and the
breakdown values sum to `225 = 175 + 50`. -/
theorem aggregation_identities_witness :
    (summarize
        [⟨1, "01-01-2026", 100, "Income", "Salary"⟩,
         ⟨2, "15-01-2026", 50, "Expense", "Rent"⟩,
         ⟨3, "31-01-2026", 75, "Income", "Bonus"⟩]).net_savings
      = (summarize
        [⟨1, "01-01-2026", 100, "Income", "Salary"⟩,
         ⟨2, "15-01-2026", 50, "Expense", "Rent"⟩,
         ⟨3, "31-01-2026", 75, "Income", "Bonus"⟩]).total_income
        - (summarize
        [⟨1, "01-01-2026", 100, "Income", "Salary"⟩,
         ⟨2, "15-01-2026", 50, "Expense", "Rent"⟩,
         ⟨3, "31-01-2026", 75, "Income", "Bonus"⟩]).total_expense ∧
    ((get_category_breakdown
        [⟨1, "01-01-2026", 100, "Income", "Salary"⟩,
         ⟨2, "15-01-2026", 50, "Expense", "Rent"⟩,
         ⟨3, "31-01-2026", 75, "Income", "Bonus"⟩]).map Prod.snd).sum
      = (summarize
        [⟨1, "01-01-2026", 100, "Income", "Salary"⟩,
         ⟨2, "15-01-2026", 50, "Expense", "Rent"⟩,
         ⟨3, "31-01-2026", 75, "Income", "Bonus"⟩]).total_income
        + (summarize
        [⟨1, "01-01-2026", 100, "Income", "Salary"⟩,
         ⟨2, "15-01-2026", 50, "Expense", "Rent"⟩,
         ⟨3, "31-01-2026", 75, "Income", "Bonus"⟩]).total_expense :=
  aggregation_identities
    [⟨1, "01-01-2026", 100, "Income", "Salary"⟩,
     ⟨2, "15-01-2026", 50, "Expense", "Rent"⟩,
     ⟨3, "31-01-2026", 75, "Income", "Bonus"⟩] (by decide)

end FinanceTracker
